import Mathlib

/-!
# Email-template build pipeline: watch / rebuild / notify loop

A shallow embedding of `scripts/watch.js` and `scripts/build.js`.

JavaScript strings are modelled as lists of characters (`Str`); the event loop
is modelled by explicit state passing: every callback of the script is a
function on the state it closes over.
-/

set_option autoImplicit false

namespace Watch

/-- JavaScript string, as the list of its characters. -/
abbrev Str := List Char

/-! ## Rebuild coordinator and notification broadcaster (`watch.js` lines 20-57) -/

/-- A response object `res` held in `sseClients`, identified by a number. -/
abbrev Conn := Nat

/-- The mutable state closed over by `runBuild`, `sendReload` and the request
handler, with the bookkeeping needed to observe them: `running` counts the
child processes that were spawned and have not exited, `spawned` counts the
calls of `spawn`, `reloads` counts the calls of `sendReload`, and `writes` is
the log of `res.write` calls in order. `sseClients` is the JavaScript `Set`
in insertion order. -/
structure State where
  building : Bool
  queued : Bool
  sseClients : List Conn
  running : Nat
  spawned : Nat
  reloads : Nat
  writes : List (Conn × Str)
deriving DecidableEq, Repr

/-- State of the script before the first `runBuild()`. -/
def State.init : State :=
  { building := false, queued := false, sseClients := [], running := 0,
    spawned := 0, reloads := 0, writes := [] }

/-- The constant `payload` of `sendReload`. -/
def payload : Str := "data: reload\n\n".toList

/-- The function `sendReload`: returns at once when the set is empty, otherwise writes
`payload` to every member in iteration order. -/
def sendReload (s : State) : State :=
  let s := { s with reloads := s.reloads + 1 }
  if s.sseClients.length = 0 then s
  else { s with writes := s.writes ++ s.sseClients.map (fun res => (res, payload)) }

/-- The call `spawn("node", [BUILD_SCRIPT], ...)`: one more child process. -/
def spawn (s : State) : State :=
  { s with running := s.running + 1, spawned := s.spawned + 1 }

/-- The function `runBuild`: when a build is in flight only `queued` is set; otherwise
`building` is set and the build script is spawned. -/
def runBuild (s : State) : State :=
  if s.building then { s with queued := true }
  else spawn { s with building := true }

/-- The `proc.on("exit", (code) => ...)` handler; `code` is `none` for the
`null` exit code of a process killed by a signal. -/
def onExit (code : Option Int) (s : State) : State :=
  let s := if code = some 0 then sendReload s else s
  let s := { s with building := false }
  if s.queued then runBuild { s with queued := false } else s

/-- A child process exits: it is no longer running and its exit handler runs. -/
def procExit (code : Option Int) (s : State) : State :=
  onExit code { s with running := s.running - 1 }

/-- The call `sseClients.add(res)`: a `Set` keeps one copy, at the position of the
first insertion. -/
def setAdd (res : Conn) (cs : List Conn) : List Conn :=
  if res ∈ cs then cs else cs ++ [res]

/-- The call `sseClients.delete(res)`. -/
def setDelete (res : Conn) (cs : List Conn) : List Conn :=
  cs.filter (fun c => c ≠ res)

/-- The `/__reload` branch of the request handler: `res.write("\n")`, then
`sseClients.add(res)`. -/
def subscribe (res : Conn) (s : State) : State :=
  { s with writes := s.writes ++ [(res, "\n".toList)], sseClients := setAdd res s.sseClients }

/-- The `req.on("close", ...)` callback of a subscriber. -/
def unsubscribe (res : Conn) (s : State) : State :=
  { s with sseClients := setDelete res s.sseClients }

/-- What can happen to the coordinator and the broadcaster. -/
inductive Event
  | trigger
  | exit (code : Option Int)
  | subscribe (res : Conn)
  | close (res : Conn)
deriving DecidableEq, Repr

/-- One event; an exit event needs a running child process. -/
def step (s : State) : Event → Option State
  | .trigger => some (runBuild s)
  | .exit code => if s.running = 0 then none else some (procExit code s)
  | .subscribe res => some (subscribe res s)
  | .close res => some (unsubscribe res s)

/-- A sequence of events, from left to right. -/
def run (s : State) : List Event → Option State
  | [] => some s
  | e :: es => (step s e).bind (fun s1 => run s1 es)

/-- Whether an event is the exit of a successful build. -/
def Event.isSuccess : Event → Bool
  | .exit (some 0) => true
  | _ => false

/-- Invariant of the coordinator: `building` says whether the one possible
child process is running. -/
def Serialized (s : State) : Prop :=
  s.running ≤ 1 ∧ (s.building = true ↔ s.running = 1)

/-- Example state: the first build in flight, two subscribers connected. -/
def buildingTwoClients : State :=
  { building := true, queued := false, sseClients := [1, 2], running := 1,
    spawned := 1, reloads := 0, writes := [] }

/-- A raw `fs.watch` notification and the time (ms) at which its callback
runs; `filename` is `none` when `fs.watch` passes `null`. -/
structure FsEvent where
  time : Nat
  eventType : Str
  filename : Option Str
deriving DecidableEq, Repr

/-- The alternatives of the group in `/\.(html|njk|txt|json|css|js|ts)$/i`. -/
def rebuildExts : List Str :=
  ["html", "njk", "txt", "json", "css", "js", "ts"].map String.toList

/-- The test `/\.(html|njk|txt|json|css|js|ts)$/i.test(filename)`: a dot and
one of the alternatives at the end of the input, ASCII letters compared
without case (the regex has no `u` flag). -/
def shouldRebuild (filename : Str) : Bool :=
  rebuildExts.any (fun ext => ('.' :: ext).isSuffixOf (filename.map Char.toLower))

/-- The function passed to `debounce`: `true` when it calls `runBuild`.
`!filename` holds for `null` and for the empty string. -/
def watchFn (_eventType : Str) (filename : Option Str) : Bool :=
  match filename with
  | none => false
  | some f => if f.isEmpty then false else shouldRebuild f

/-- The default `delay` of `debounce`, which `watchHandler` uses. -/
def debounceDelay : Nat := 150

/-- The variable `timer` of the debounced function when a timeout is pending:
the time at which it is due and the arguments its callback passes to `fn`. -/
structure Timer where
  due : Nat
  eventType : Str
  filename : Option Str
deriving DecidableEq, Repr

/-- The timeout callback `() => fn(...args)`: the times of the `runBuild`
calls it makes. -/
def Timer.callback (t : Timer) : List Nat :=
  if watchFn t.eventType t.filename then [t.due] else []

/-- The timers phase of the event loop at time `now`: a pending timeout that
is due runs its callback, before the callbacks of events that arrive at `now`. -/
def runTimers (now : Nat) : Option Timer → Option Timer × List Nat
  | none => (none, [])
  | some t => if t.due ≤ now then (none, t.callback) else (some t, [])

/-- The call `setTimeout(() => fn(...args), delay)` made at the time of the
notification `e` with its arguments. -/
def setTimeout (e : FsEvent) : Timer :=
  { due := e.time + debounceDelay, eventType := e.eventType, filename := e.filename }

/-- The call `clearTimeout(timer)`. -/
def clearTimeout (_timer : Option Timer) : Option Timer := none

/-- The function `watchHandler`, returned by `debounce`: clears the pending
timeout, whatever the arguments are, and sets a new one with them. -/
def watchHandler (e : FsEvent) (timer : Option Timer) : Option Timer :=
  match clearTimeout timer with
  | _ => some (setTimeout e)

/-- The watcher over a sequence of notifications, after which nothing more
arrives and the pending timeout runs: the times of the `runBuild` calls. -/
def watchRun (timer : Option Timer) : List FsEvent → List Nat
  | [] => match timer with
    | none => []
    | some t => t.callback
  | e :: es => (runTimers e.time timer).2 ++ watchRun (watchHandler e (runTimers e.time timer).1) es

/-- The `runBuild` calls of the watcher started with no pending timeout. -/
def runBuildCalls (evs : List FsEvent) : List Nat :=
  watchRun none evs

/-- Whether the filter of `watchFn` lets a notification through. -/
def FsEvent.accepted (e : FsEvent) : Bool :=
  watchFn e.eventType e.filename

/-- Example notifications: a template is saved, then a file outside the
allowlist changes 100 ms later. -/
def saveThenIgnored : List FsEvent :=
  [{ time := 0, eventType := "change".toList, filename := some "a.html".toList },
   { time := 100, eventType := "change".toList, filename := some "notes.md".toList }]

/-- Example notification of a change to `name` at time `t`. -/
def changeAt (t : Nat) (name : String) : FsEvent :=
  { time := t, eventType := "change".toList, filename := some name.toList }

/-! ## Library functions used by the scripts

Node's `path` module (POSIX flavour) and the built-in `decodeURIComponent`,
written after their reference algorithms. -/

/-- The call `s.split("/")`: the pieces between slashes (at least one piece). -/
def splitSlash : Str → List Str
  | [] => [[]]
  | c :: cs =>
    if c = '/' then [] :: splitSlash cs
    else
      match splitSlash cs with
      | [] => [[c]]
      | seg :: segs => (c :: seg) :: segs

/-- The call `segs.join("/")`. -/
def joinSlash : List Str → Str
  | [] => []
  | [seg] => seg
  | seg :: segs => seg ++ '/' :: joinSlash segs

/-- The loop of Node's `normalizeString`, one path segment at a time; `res`
holds the segments kept so far, the last one first. Empty segments and `.`
are skipped; `..` removes the last kept segment unless there is none or it is
itself `..`, in which case `..` is kept when `allowAboveRoot`. -/
def normalizeSegments (allowAboveRoot : Bool) (res : List Str) : List Str → List Str
  | [] => res
  | seg :: segs =>
    if seg = [] ∨ seg = ['.'] then normalizeSegments allowAboveRoot res segs
    else if seg = ['.', '.'] then
      match res with
      | [] =>
        normalizeSegments allowAboveRoot (if allowAboveRoot then [seg] else []) segs
      | top :: below =>
        if top = ['.', '.'] then
          normalizeSegments allowAboveRoot (if allowAboveRoot then seg :: res else res) segs
        else normalizeSegments allowAboveRoot below segs
    else normalizeSegments allowAboveRoot (seg :: res) segs

/-- Node's `normalizeString(path, allowAboveRoot, "/", isPosixPathSeparator)`. -/
def normalizeString (path : Str) (allowAboveRoot : Bool) : Str :=
  joinSlash (normalizeSegments allowAboveRoot [] (splitSlash path)).reverse

/-- Node's `path.posix.normalize`. -/
def pathNormalize (path : Str) : Str :=
  if path = [] then ['.']
  else
    let isAbsolute := path.head? = some '/'
    let trailingSeparator := path.getLast? = some '/'
    let p := normalizeString path (!isAbsolute)
    if p = [] then
      if isAbsolute then ['/'] else if trailingSeparator then ['.', '/'] else ['.']
    else
      let p := if trailingSeparator then p ++ ['/'] else p
      if isAbsolute then '/' :: p else p

/-- Node's `path.posix.join(...args)`: the non-empty arguments joined by
slashes, then normalised; `.` when there is none. -/
def pathJoin (args : List Str) : Str :=
  match args.filter (fun a => !a.isEmpty) with
  | [] => ['.']
  | parts => pathNormalize (joinSlash parts)

/-- State of the backwards scan in Node's `path.posix.extname`; `none` stands
for the index `-1`. -/
structure ExtScan where
  startDot : Option Nat
  startPart : Nat
  endIdx : Option Nat
  matchedSlash : Bool
  preDotState : Int
  stopped : Bool

/-- One iteration of the scan of `extname`, at index `i` with character `c`. -/
def extnameStep (st : ExtScan) (i : Nat) (c : Char) : ExtScan :=
  if st.stopped then st
  else if c = '/' then
    if !st.matchedSlash then { st with startPart := i + 1, stopped := true } else st
  else
    let st :=
      if st.endIdx = none then { st with matchedSlash := false, endIdx := some (i + 1) }
      else st
    if c = '.' then
      if st.startDot = none then { st with startDot := some i }
      else if st.preDotState ≠ 1 then { st with preDotState := 1 }
      else st
    else if st.startDot ≠ none then { st with preDotState := -1 }
    else st

/-- Node's `path.posix.extname`. -/
def extname (path : Str) : Str :=
  let st := path.enum.foldr (fun p st => extnameStep st p.1 p.2)
    { startDot := none, startPart := 0, endIdx := none, matchedSlash := true,
      preDotState := 0, stopped := false }
  match st.startDot, st.endIdx with
  | some startDot, some endIdx =>
    if st.preDotState = 0 ∨
        (st.preDotState = 1 ∧ startDot = endIdx - 1 ∧ startDot = st.startPart + 1) then []
    else (path.take endIdx).drop startDot
  | _, _ => []

/-- Value of a hexadecimal digit. -/
def hexVal (c : Char) : Option Nat :=
  if '0' ≤ c ∧ c ≤ '9' then some (c.toNat - 48)
  else if 'a' ≤ c ∧ c ≤ 'f' then some (c.toNat - 87)
  else if 'A' ≤ c ∧ c ≤ 'F' then some (c.toNat - 55)
  else none

/-- A unit of an encoded URI component: a character standing for itself, or
the octet of an escape `%XY`. -/
inductive UriUnit
  | lit (c : Char)
  | octet (b : Nat)
deriving DecidableEq, Repr

/-- The escapes of an encoded component; `none` when a `%` is not followed by
two hexadecimal digits (`URIError`). -/
def uriUnits : Str → Option (List UriUnit)
  | [] => some []
  | c :: rest =>
    if c = '%' then
      match rest with
      | h :: l :: rest2 =>
        match hexVal h, hexVal l, uriUnits rest2 with
        | some a, some b, some us => some (UriUnit.octet (16 * a + b) :: us)
        | _, _, _ => none
      | _ => none
    else (uriUnits rest).map (fun us => UriUnit.lit c :: us)

/-- Whether `b` is a UTF-8 continuation octet `10xxxxxx`. -/
def isCont (b : Nat) : Bool := 0x80 ≤ b && b < 0xC0

/-- The octets of the escapes decoded as UTF-8; `none` when they are not the
encoding of Unicode code points (`URIError`): a sequence cut short or
interrupted, a stray continuation octet, an overlong form, a surrogate, or a
value above U+10FFFF. -/
def utf8Units : List UriUnit → Option Str
  | [] => some []
  | UriUnit.lit c :: rest => (utf8Units rest).map (fun s => c :: s)
  | UriUnit.octet b :: rest =>
    if b < 0x80 then (utf8Units rest).map (fun s => Char.ofNat b :: s)
    else if b < 0xC0 then none
    else if b < 0xE0 then
      match rest with
      | UriUnit.octet b1 :: rest1 =>
        let v := (b - 0xC0) * 64 + (b1 - 0x80)
        if isCont b1 ∧ 0x80 ≤ v then (utf8Units rest1).map (fun s => Char.ofNat v :: s)
        else none
      | _ => none
    else if b < 0xF0 then
      match rest with
      | UriUnit.octet b1 :: UriUnit.octet b2 :: rest2 =>
        let v := (b - 0xE0) * 4096 + (b1 - 0x80) * 64 + (b2 - 0x80)
        if isCont b1 ∧ isCont b2 ∧ 0x800 ≤ v ∧ ¬ (0xD800 ≤ v ∧ v < 0xE000) then
          (utf8Units rest2).map (fun s => Char.ofNat v :: s)
        else none
      | _ => none
    else if b < 0xF8 then
      match rest with
      | UriUnit.octet b1 :: UriUnit.octet b2 :: UriUnit.octet b3 :: rest3 =>
        let v := (b - 0xF0) * 262144 + (b1 - 0x80) * 4096 + (b2 - 0x80) * 64 + (b3 - 0x80)
        if isCont b1 ∧ isCont b2 ∧ isCont b3 ∧ 0x10000 ≤ v ∧ v < 0x110000 then
          (utf8Units rest3).map (fun s => Char.ofNat v :: s)
        else none
      | _ => none
    else none

deriving instance DecidableEq for Except

/-- The error values a callback of the preview server can throw. -/
inductive JsError
  | uriError
  | fsError
deriving DecidableEq, Repr

/-- The built-in `decodeURIComponent`: every escape `%XY` is replaced, the
octets being read as UTF-8; throws `URIError` on a malformed escape. -/
def decodeURIComponent (s : Str) : Except JsError Str :=
  match (uriUnits s).bind utf8Units with
  | some r => Except.ok r
  | none => Except.error JsError.uriError

/-! ## Preview server (`watch.js` lines 74-145) -/

/-- What the request handler reads from its surroundings: `__dirname`, the
result of `fs.readdirSync(DIST_DIR)` (`none` when it throws) and the result
of `fs.readFile(filePath, ...)` for every path (`none` when the callback gets
an error). -/
structure Env where
  dirname : Str
  readdirDist : Option (List Str)
  readFile : Str → Option Str

/-- The constant `DIST_DIR = path.join(__dirname, "..", "dist")`. -/
def DIST_DIR (dirname : Str) : Str :=
  pathJoin [dirname, "..".toList, "dist".toList]

/-- The table `mimeTypes`. -/
def mimeTypes : List (Str × Str) :=
  [(".html".toList, "text/html; charset=utf-8".toList),
   (".css".toList, "text/css; charset=utf-8".toList),
   (".js".toList, "application/javascript; charset=utf-8".toList),
   (".json".toList, "application/json; charset=utf-8".toList),
   (".svg".toList, "image/svg+xml".toList),
   (".png".toList, "image/png".toList),
   (".jpg".toList, "image/jpeg".toList),
   (".jpeg".toList, "image/jpeg".toList),
   (".gif".toList, "image/gif".toList),
   (".txt".toList, "text/plain; charset=utf-8".toList)]

/-- The script element appended by `injectReloadSnippet`. -/
def reloadSnippet : Str :=
  ("\n<script>\n  (() => \x7b\n" ++
   "    const es = new EventSource(\x27/__reload\x27);\n" ++
   "    es.onmessage = (e) => \x7b if (e.data === \x27reload\x27) location.reload(); \x7d;\n" ++
   "    es.onerror = () => \x7b es.close(); setTimeout(() => location.reload(), 500); \x7d;\n" ++
   "  \x7d)();\n</script>").toList

/-- The function `injectReloadSnippet`. -/
def injectReloadSnippet (html : Str) : Str :=
  html ++ reloadSnippet

/-- The test `f.toLowerCase().endsWith(".html")`, used by both scripts. -/
def endsWithHtml (f : Str) : Bool :=
  ".html".toList.isSuffixOf (f.map Char.toLower)

/-- The function `defaultHtmlPath`: the first entry of the output directory that ends in
`.html`, or the empty string; throws when the directory cannot be listed. -/
def defaultHtmlPath (env : Env) : Except JsError Str :=
  match env.readdirDist with
  | none => Except.error JsError.fsError
  | some files => Except.ok ((files.filter endsWithHtml).headD [])

/-- What the handler does with the response. -/
inductive Reply
  | eventStream
  | status (code : Nat) (body : Str)
  | file (contentType : Str) (body : Str)
deriving DecidableEq, Repr

/-- A request that was handled: the reply and the paths given to
`fs.readFile`. -/
structure Handled where
  reply : Reply
  reads : List Str
deriving DecidableEq, Repr

/-- The request handler of `http.createServer`, on `req.url`. The result is
`Except.error` when an exception leaves the handler. `Reply.eventStream` is
the `/__reload` branch (status 200, the connection joins `sseClients`);
`Reply.file` is a reply with the default status 200. -/
def handler (env : Env) (url : Str) : Except JsError Handled :=
  if url = "/__reload".toList then Except.ok { reply := Reply.eventStream, reads := [] }
  else
    match decodeURIComponent (url.takeWhile (fun c => c ≠ '?')) with
    | Except.error err => Except.error err
    | Except.ok urlPath =>
      match (if urlPath = ['/'] then defaultHtmlPath env else Except.ok (urlPath.drop 1)) with
      | Except.error err => Except.error err
      | Except.ok safePath =>
        let filePath := pathJoin [DIST_DIR env.dirname, safePath]
        if !(DIST_DIR env.dirname).isPrefixOf filePath then
          Except.ok { reply := Reply.status 403 "Forbidden".toList, reads := [] }
        else
          match env.readFile filePath with
          | none => Except.ok { reply := Reply.status 404 "Not found".toList, reads := [filePath] }
          | some data =>
            let ext := (extname filePath).map Char.toLower
            let type := ((mimeTypes.lookup ext).getD "application/octet-stream".toList)
            Except.ok
              { reply := Reply.file type
                  (if ext = ".html".toList then injectReloadSnippet data else data),
                reads := [filePath] }

/-- Whether `p` is the directory `root` or a path below it. -/
def insideRoot (root p : Str) : Bool :=
  p = root || (root ++ ['/']).isPrefixOf p

/-- Example surroundings: the scripts live in `/srv/app/scripts`, the output
directory is missing, and the only readable file is `/srv/app/dist-other/x`. -/
def siblingEnv : Env :=
  { dirname := "/srv/app/scripts".toList,
    readdirDist := none,
    readFile := fun p => if p = "/srv/app/dist-other/x".toList then some "secret".toList else none }

/-! ## Build runner (`build.js`) -/

/-- The constant `templatePath = path.join("templates", file)`, relative to `SRC_ROOT`. -/
def templatePath (file : Str) : Str :=
  pathJoin ["templates".toList, file]

/-- The constant `outPath = path.join(DIST_DIR, file)`. -/
def outPath (distDir file : Str) : Str :=
  pathJoin [distDir, file]

/-- One pass of `build.js` over the entries returned by
`fs.readdirSync(TEMPLATE_DIR)`: the templates are the entries ending in
`.html`; each is rendered by `env.render` on `templatePath` and written to
`outPath`. A render error is thrown out of
the loop. The result carries the log of `fs.writeFileSync` calls, in order. -/
def renderAll {ε : Type} (render : Str → Except ε Str) (distDir : Str) :
    List Str → List (Str × Str) → Except ε Unit × List (Str × Str)
  | [], written => (Except.ok (), written)
  | file :: rest, written =>
    match render (templatePath file) with
    | Except.error err => (Except.error err, written)
    | Except.ok rendered =>
      renderAll render distDir rest (written ++ [(outPath distDir file, rendered)])

/-- The script `build.js`, given `__dirname`, the directory entries and the
renderer. -/
def build {ε : Type} (dirname : Str) (entries : List Str) (render : Str → Except ε Str) :
    Except ε Unit × List (Str × Str) :=
  renderAll render (DIST_DIR dirname) (entries.filter endsWithHtml) []

/-- Exit code of the node process: 1 after an uncaught exception, else 0. -/
def exitCode {ε : Type} : Except ε Unit → Nat
  | Except.ok _ => 0
  | Except.error _ => 1

/-- A write of `build.js` for the template `g`: the output file of the same
name in the output directory, holding the text rendered for `g`. -/
def WriteOf {ε : Type} (render : Str → Except ε Str) (distDir : Str) (g : Str)
    (w : Str × Str) : Prop :=
  w.1 = outPath distDir g ∧ render (templatePath g) = Except.ok w.2

/-- Example renderer: `b.html` has an unresolvable include, every other
template renders to `Hello`. -/
def failOnB (templatePath : Str) : Except String Str :=
  if templatePath = "templates/b.html".toList then Except.error "template not found"
  else Except.ok "Hello".toList

/-- A directory entry as `readdirSync` returns it: a non-empty name without
slash, other than `.` and `..`. -/
def PlainName (g : Str) : Prop :=
  g ≠ [] ∧ g ≠ ['.'] ∧ g ≠ ['.', '.'] ∧ '/' ∉ g

/-- What `path.join(dir, name)` puts before a plain `name`, for a non-empty
`dir`: the normalised directory and a slash. -/
def dirPrefix (dir : Str) : Str :=
  (if dir.head? = some '/' then ['/'] else []) ++
  (match (normalizeSegments (!decide (dir.head? = some '/')) [] (splitSlash dir)).reverse with
   | [] => []
   | segs => joinSlash segs ++ ['/'])

/-! # Lemmas -/

/-! ### Lemmas on the coordinator -/

theorem runBuild_of_building (s : State) (hb : s.building = true) :
    runBuild s = { s with queued := true } := by
  simp [runBuild, hb]

theorem runBuild_iterate_of_building (n : Nat) (s : State) (hb : s.building = true) :
    runBuild^[n + 1] s = { s with queued := true } := by
  induction n generalizing s with
  | zero => simp [runBuild_of_building s hb]
  | succ k ih =>
    rw [Function.iterate_succ_apply, runBuild_of_building s hb]
    exact ih { s with queued := true } hb

theorem sendReload_fields (s : State) :
    (sendReload s).building = s.building ∧ (sendReload s).queued = s.queued ∧
    (sendReload s).running = s.running ∧ (sendReload s).spawned = s.spawned ∧
    (sendReload s).sseClients = s.sseClients ∧ (sendReload s).reloads = s.reloads + 1 := by
  unfold sendReload
  by_cases h : s.sseClients.length = 0 <;> simp [h]

theorem sendReload_writes (s : State) :
    (sendReload s).writes = s.writes ++ s.sseClients.map (fun res => (res, payload)) := by
  unfold sendReload
  by_cases h : s.sseClients.length = 0
  · have h0 : s.sseClients = [] := List.length_eq_zero.mp h
    simp [h0]
  · simp [h]

theorem serialized_step (s s1 : State) (e : Event) (hs : Serialized s)
    (h : step s e = some s1) : Serialized s1 := by
  obtain ⟨hle, hiff⟩ := hs
  cases e with
  | trigger =>
    simp only [step, Option.some.injEq] at h
    subst h
    by_cases hb : s.building = true
    · rw [runBuild_of_building s hb]
      exact ⟨hle, hiff⟩
    · have hr : s.running = 0 := by
        have : s.running ≠ 1 := fun h1 => hb (hiff.mpr h1)
        omega
      simp [runBuild, hb, spawn, Serialized, hr]
  | exit code =>
    by_cases h0 : s.running = 0
    · simp [step, h0] at h
    · have hr : s.running = 1 := by omega
      simp only [step, h0, if_false, Option.some.injEq] at h
      subst h
      obtain ⟨f1, f2, f3, f4, f5, f6⟩ := sendReload_fields { s with running := s.running - 1 }
      by_cases hc : code = some 0 <;> by_cases hq : s.queued = true <;>
        simp_all [procExit, onExit, runBuild, spawn, Serialized]
  | subscribe res =>
    simp only [step, Option.some.injEq] at h
    subst h
    exact ⟨hle, hiff⟩
  | close res =>
    simp only [step, Option.some.injEq] at h
    subst h
    exact ⟨hle, hiff⟩

theorem serialized_run (evs : List Event) (s s1 : State) (hs : Serialized s)
    (h : run s evs = some s1) : Serialized s1 := by
  induction evs generalizing s with
  | nil =>
    simp only [run, Option.some.injEq] at h
    exact h ▸ hs
  | cons e es ih =>
    simp only [run] at h
    cases hstep : step s e with
    | none => simp [hstep] at h
    | some s2 =>
      rw [hstep] at h
      exact ih s2 (serialized_step s s2 e hs hstep) h

theorem runBuild_keeps (s : State) :
    (runBuild s).reloads = s.reloads ∧ (runBuild s).writes = s.writes ∧
    (runBuild s).sseClients = s.sseClients := by
  unfold runBuild spawn
  by_cases hb : s.building = true <;> simp [hb]

theorem onExit_reloads (code : Option Int) (s : State) :
    (onExit code s).reloads = if code = some 0 then s.reloads + 1 else s.reloads := by
  obtain ⟨-, f2, -, -, -, f6⟩ := sendReload_fields s
  unfold onExit
  by_cases hc : code = some 0 <;> by_cases hq : s.queued = true <;>
    simp [hc, hq, f2, f6, (runBuild_keeps _).1]

theorem onExit_writes (code : Option Int) (s : State) :
    (onExit code s).writes =
      if code = some 0 then s.writes ++ s.sseClients.map (fun res => (res, payload))
      else s.writes := by
  obtain ⟨-, f2, -, -, -, -⟩ := sendReload_fields s
  have fw := sendReload_writes s
  unfold onExit
  by_cases hc : code = some 0 <;> by_cases hq : s.queued = true <;>
    simp [hc, hq, f2, fw, (runBuild_keeps _).2.1]

theorem step_reloads (s s1 : State) (e : Event) (h : step s e = some s1) :
    s1.reloads = s.reloads + (if e.isSuccess = true then 1 else 0) := by
  cases e with
  | trigger =>
    simp only [step, Option.some.injEq] at h
    subst h
    simp [(runBuild_keeps s).1, Event.isSuccess]
  | exit code =>
    by_cases h0 : s.running = 0
    · simp [step, h0] at h
    · simp only [step, h0, if_false, Option.some.injEq] at h
      subst h
      rw [procExit, onExit_reloads]
      by_cases hc : code = some 0
      · subst hc
        simp [Event.isSuccess]
      · have : (Event.exit code).isSuccess = false := by
          cases code with
          | none => rfl
          | some k =>
            cases k with
            | ofNat n =>
              cases n with
              | zero => exact absurd rfl hc
              | succ m => rfl
            | negSucc n => rfl
        simp [hc, this]
  | subscribe res =>
    simp only [step, Option.some.injEq] at h
    subst h
    simp [subscribe, Event.isSuccess]
  | close res =>
    simp only [step, Option.some.injEq] at h
    subst h
    simp [unsubscribe, Event.isSuccess]

theorem run_reloads (evs : List Event) (s s1 : State) (h : run s evs = some s1) :
    s1.reloads = s.reloads + (evs.filter Event.isSuccess).length := by
  induction evs generalizing s with
  | nil =>
    simp only [run, Option.some.injEq] at h
    subst h
    simp
  | cons e es ih =>
    simp only [run] at h
    cases hstep : step s e with
    | none => simp [hstep] at h
    | some s2 =>
      rw [hstep] at h
      have h1 := step_reloads s s2 e hstep
      have h2 := ih s2 h
      by_cases he : e.isSuccess = true
      · simp [List.filter, he] at h1 ⊢
        omega
      · simp [List.filter, he] at h1 ⊢
        omega

/-! ### Lemmas on the subscriber set -/

theorem callback_setTimeout (e : FsEvent) :
    (setTimeout e).callback = if e.accepted = true then [e.time + 150] else [] := by
  simp [Timer.callback, setTimeout, FsEvent.accepted, debounceDelay]

theorem watchRun_none_cons (e : FsEvent) (es : List FsEvent) :
    watchRun none (e :: es) = watchRun (some (setTimeout e)) es := by
  simp [watchRun, runTimers, watchHandler]

theorem watchRun_some_cons (t : Timer) (e : FsEvent) (es : List FsEvent) :
    watchRun (some t) (e :: es)
      = (if t.due ≤ e.time then t.callback else []) ++ watchRun (some (setTimeout e)) es := by
  by_cases h : t.due ≤ e.time <;> simp [watchRun, runTimers, watchHandler, h]

theorem watchRun_ignored (e0 : FsEvent) (es : List FsEvent)
    (hign : ∀ e ∈ e0 :: es, e.accepted = false) :
    watchRun (some (setTimeout e0)) es = [] := by
  induction es generalizing e0 with
  | nil =>
    have h0 : e0.accepted = false := hign e0 (List.mem_cons_self _ _)
    simp [watchRun, callback_setTimeout, h0]
  | cons p ps ih =>
    have h0 : e0.accepted = false := hign e0 (List.mem_cons_self _ _)
    rw [watchRun_some_cons, callback_setTimeout, ih p (fun e he => hign e (List.mem_cons_of_mem _ he))]
    simp [h0]

theorem accepted_of_suffix (e : FsEvent) (f : Str) (hf : e.filename = some f) :
    e.accepted = shouldRebuild f := by
  unfold FsEvent.accepted watchFn
  rw [hf]
  cases f with
  | nil => decide
  | cons c cs => simp

theorem shouldRebuild_eq_false (f : Str)
    (h : ∀ ext ∈ [".html", ".njk", ".txt", ".json", ".css", ".js", ".ts"].map String.toList,
      ¬ ext <:+ f.map Char.toLower) :
    shouldRebuild f = false := by
  simp only [List.map_cons, List.map_nil, List.mem_cons, List.mem_singleton, forall_eq_or_imp,
    forall_eq, List.not_mem_nil, false_implies, implies_true, and_true] at h
  have e1 : ∀ a b : Str, a.isSuffixOf b = false ↔ ¬ a <:+ b := by
    intro a b
    rw [← List.isSuffixOf_iff_suffix, Bool.not_eq_true]
  simp only [shouldRebuild, rebuildExts, List.map_cons, List.map_nil, List.any_cons,
    List.any_nil, Bool.or_false, Bool.or_eq_false_iff, e1]
  exact h

/-! ### Lemmas on the build runner -/

theorem renderAll_ok {ε : Type} (render : Str → Except ε Str) (distDir : Str)
    (ts : List Str) (written : List (Str × Str))
    (h : ∀ g ∈ ts, ∃ text, render (templatePath g) = Except.ok text) :
    ∃ ws, renderAll render distDir ts written = (Except.ok (), written ++ ws) ∧
      List.Forall₂ (WriteOf render distDir) ts ws := by
  induction ts generalizing written with
  | nil => exact ⟨[], by simp [renderAll], List.Forall₂.nil⟩
  | cons g gs ih =>
    obtain ⟨text, ht⟩ := h g (List.mem_cons_self _ _)
    obtain ⟨ws, hws, hR⟩ := ih (written ++ [(outPath distDir g, text)])
      (fun g2 hg2 => h g2 (List.mem_cons_of_mem _ hg2))
    refine ⟨(outPath distDir g, text) :: ws, ?_, List.Forall₂.cons ⟨rfl, ht⟩ hR⟩
    simp only [renderAll, ht, hws, List.append_assoc, List.singleton_append]

theorem renderAll_fail {ε : Type} (render : Str → Except ε Str) (distDir : Str)
    (pre : List Str) (file : Str) (post : List Str) (err : ε) (written : List (Str × Str))
    (hpre : ∀ g ∈ pre, ∃ text, render (templatePath g) = Except.ok text)
    (hfile : render (templatePath file) = Except.error err) :
    ∃ ws, renderAll render distDir (pre ++ file :: post) written
        = (Except.error err, written ++ ws) ∧
      List.Forall₂ (WriteOf render distDir) pre ws := by
  induction pre generalizing written with
  | nil =>
    refine ⟨[], ?_, List.Forall₂.nil⟩
    rw [List.nil_append, List.append_nil, renderAll, hfile]
  | cons g gs ih =>
    obtain ⟨text, ht⟩ := hpre g (List.mem_cons_self _ _)
    obtain ⟨ws, hws, hR⟩ := ih (written ++ [(outPath distDir g, text)])
      (fun g2 hg2 => hpre g2 (List.mem_cons_of_mem _ hg2))
    refine ⟨(outPath distDir g, text) :: ws, ?_, List.Forall₂.cons ⟨rfl, ht⟩ hR⟩
    rw [List.cons_append, renderAll, ht]
    simp only [hws, List.append_assoc, List.singleton_append]

/-! ### Lemmas on `path.join` -/

theorem splitSlash_ne_nil (s : Str) : splitSlash s ≠ [] := by
  cases s with
  | nil => simp [splitSlash]
  | cons c cs =>
    unfold splitSlash
    by_cases hc : c = '/'
    · simp [hc]
    · simp only [hc, if_false]
      cases splitSlash cs <;> simp

theorem splitSlash_plain (g : Str) (hg : '/' ∉ g) : splitSlash g = [g] := by
  induction g with
  | nil => rfl
  | cons c cs ih =>
    have hc : c ≠ '/' := fun h => hg (h ▸ List.mem_cons_self _ _)
    have hcs : '/' ∉ cs := fun h => hg (List.mem_cons_of_mem _ h)
    simp [splitSlash, hc, ih hcs]

theorem splitSlash_append_plain (d g : Str) (hg : '/' ∉ g) :
    splitSlash (d ++ '/' :: g) = splitSlash d ++ [g] := by
  induction d with
  | nil => simp [splitSlash, splitSlash_plain g hg]
  | cons c cs ih =>
    by_cases hc : c = '/'
    · simp [splitSlash, hc, ih]
    · obtain ⟨seg, segs, hs⟩ : ∃ seg segs, splitSlash cs = seg :: segs := by
        cases h : splitSlash cs with
        | nil => exact absurd h (splitSlash_ne_nil cs)
        | cons seg segs => exact ⟨seg, segs, rfl⟩
      simp [splitSlash, hc, ih, hs]

theorem normalizeSegments_append_plain (allow : Bool) (res segs : List Str) (g : Str)
    (h1 : g ≠ []) (h2 : g ≠ ['.']) (h3 : g ≠ ['.', '.']) :
    normalizeSegments allow res (segs ++ [g]) = g :: normalizeSegments allow res segs := by
  induction segs generalizing res with
  | nil => simp [normalizeSegments, h1, h2, h3]
  | cons seg rest ih =>
    rw [List.cons_append]
    unfold normalizeSegments
    by_cases ha : seg = [] ∨ seg = ['.']
    · simp only [ha, if_true]
      exact ih res
    · simp only [ha, if_false]
      by_cases hb : seg = ['.', '.']
      · simp only [hb, if_true]
        cases res with
        | nil => exact ih _
        | cons top below =>
          by_cases ht : top = ['.', '.']
          · simp only [ht, if_true]
            exact ih _
          · simp only [ht, if_false]
            exact ih _
      · simp only [hb, if_false]
        exact ih _

theorem joinSlash_append_singleton (s : Str) (rest : List Str) (g : Str) :
    joinSlash (s :: rest ++ [g]) = joinSlash (s :: rest) ++ '/' :: g := by
  induction rest generalizing s with
  | nil => simp [joinSlash]
  | cons r rs ih =>
    have h := ih r
    simp only [List.cons_append] at h ⊢
    simp only [joinSlash, h, List.append_assoc, List.cons_append]

theorem pathJoin_plain (dir g : Str) (hd : dir ≠ []) (hg : PlainName g) :
    pathJoin [dir, g] = dirPrefix dir ++ g := by
  obtain ⟨h1, h2, h3, h4⟩ := hg
  obtain ⟨c, cs, rfl⟩ : ∃ c cs, dir = c :: cs := by
    cases dir with
    | nil => exact absurd rfl hd
    | cons c cs => exact ⟨c, cs, rfl⟩
  obtain ⟨x, xs, rfl⟩ : ∃ x xs, g = x :: xs := by
    cases g with
    | nil => exact absurd rfl h1
    | cons x xs => exact ⟨x, xs, rfl⟩
  have hlast : ¬ (c :: (cs ++ '/' :: x :: xs)).getLast? = some '/' := by
    have e : c :: (cs ++ '/' :: x :: xs) = (c :: cs ++ ['/']) ++ (x :: xs) := by simp
    rw [e, List.getLast?_append_of_ne_nil _ (by simp)]
    intro hl
    exact h4 (List.mem_of_getLast?_eq_some hl)
  have hsplit := splitSlash_append_plain (c :: cs) (x :: xs) h4
  have hjoin : joinSlash [c :: cs, x :: xs] = (c :: cs) ++ '/' :: x :: xs := rfl
  have hfilter : ([c :: cs, x :: xs] : List Str).filter (fun a => !a.isEmpty)
      = [c :: cs, x :: xs] := rfl
  unfold pathJoin
  rw [hfilter]
  simp only [hjoin, pathNormalize, normalizeString, dirPrefix]
  rw [hsplit, normalizeSegments_append_plain _ _ _ _ h1 h2 h3, List.reverse_cons]
  simp only [List.cons_append, List.head?_cons, reduceCtorEq, if_false, hlast]
  generalize (normalizeSegments (!decide (some c = some '/')) [] (splitSlash (c :: cs))).reverse
    = segs
  cases segs with
  | nil =>
    by_cases hc : c = '/' <;> simp [hc, joinSlash]
  | cons s ss =>
    rw [joinSlash_append_singleton]
    have hne : joinSlash (s :: ss) ++ '/' :: x :: xs ≠ [] := by simp
    by_cases hc : c = '/' <;> simp [hc]

theorem pathNormalize_ne_nil (p : Str) : pathNormalize p ≠ [] := by
  unfold pathNormalize
  by_cases h0 : p = []
  · simp [h0]
  · simp only [h0, if_false]
    generalize normalizeString p (!decide (p.head? = some '/')) = q
    by_cases hq : q = [] <;> by_cases h2 : p.head? = some '/' <;>
      by_cases h3 : p.getLast? = some '/' <;> simp [hq, h2, h3]

theorem pathJoin_ne_nil (args : List Str) : pathJoin args ≠ [] := by
  unfold pathJoin
  cases args.filter (fun a => !a.isEmpty) with
  | nil => simp
  | cons a as => exact pathNormalize_ne_nil _

theorem outPath_injective (dir g1 g2 : Str) (hd : dir ≠ []) (h1 : PlainName g1)
    (h2 : PlainName g2) (h : outPath dir g1 = outPath dir g2) : g1 = g2 := by
  unfold outPath at h
  rw [pathJoin_plain dir g1 hd h1, pathJoin_plain dir g2 hd h2] at h
  exact List.append_cancel_left h

theorem written_paths {ε : Type} (render : Str → Except ε Str) (distDir : Str)
    (ts : List Str) (ws : List (Str × Str))
    (h : List.Forall₂ (WriteOf render distDir) ts ws) :
    ws.map Prod.fst = ts.map (outPath distDir) := by
  induction h with
  | nil => rfl
  | cons hw _ ih => simp [ih, hw.1]

/-! ### Lemmas on the preview server -/

theorem handler_reads_under_root_string (env : Env) (url : Str) (h : Handled)
    (hh : handler env url = Except.ok h) :
    ∀ p ∈ h.reads, DIST_DIR env.dirname <+: p := by
  unfold handler at hh
  split at hh
  · cases hh
    simp
  · split at hh
    · cases hh
    · split at hh
      · cases hh
      · dsimp only at hh
        split at hh
        · cases hh
          simp
        · rename_i hpre
          have hp : DIST_DIR env.dirname <+: pathJoin [DIST_DIR env.dirname, ‹Str›] := by
            rw [← List.isPrefixOf_iff_prefix]
            simpa using hpre
          split at hh <;> cases hh <;> simpa using hp

theorem handler_responds (env : Env) (url urlPath : Str) (h1 : url ≠ "/__reload".toList)
    (hdec : decodeURIComponent (url.takeWhile (fun c => c ≠ '?')) = Except.ok urlPath)
    (hdir : urlPath = ['/'] → env.readdirDist ≠ none) :
    ∃ h, handler env url = Except.ok h ∧
      (h.reply = Reply.status 403 "Forbidden".toList ∨
       h.reply = Reply.status 404 "Not found".toList ∨
       ∃ type body, h.reply = Reply.file type body) := by
  unfold handler
  rw [if_neg h1, hdec]
  have hsafe : ∃ safePath,
      (if urlPath = ['/'] then defaultHtmlPath env else Except.ok (urlPath.drop 1))
        = Except.ok safePath := by
    by_cases hroot : urlPath = ['/']
    · rw [if_pos hroot]
      cases hr : env.readdirDist with
      | none => exact absurd hr (hdir hroot)
      | some files => exact ⟨(files.filter endsWithHtml).headD [], by rw [defaultHtmlPath, hr]⟩
    · rw [if_neg hroot]
      exact ⟨_, rfl⟩
  obtain ⟨safePath, hs⟩ := hsafe
  simp only [hs]
  split
  · exact ⟨_, rfl, Or.inl rfl⟩
  · split
    · exact ⟨_, rfl, Or.inr (Or.inl rfl)⟩
    · exact ⟨_, rfl, Or.inr (Or.inr ⟨_, _, rfl⟩)⟩

/-! # Main results -/

/-- C1: when `runBuild` is called `N ≥ 1` times while a build process is in
flight, the calls spawn nothing; the exit of that process, with any exit code,
spawns exactly one further build process; and when that follow-up exits with
no call in between, nothing more is spawned and the coordinator is idle
(`building = false`, `queued = false`, no process running). -/
theorem runBuild_burst_one_followup (N : Nat) (hN : 1 ≤ N) (s : State)
    (hb : s.building = true) (hr : s.running = 1) (code code2 : Option Int) :
    (runBuild^[N] s).spawned = s.spawned ∧
    (procExit code (runBuild^[N] s)).spawned = s.spawned + 1 ∧
    (procExit code (runBuild^[N] s)).running = 1 ∧
    (procExit code2 (procExit code (runBuild^[N] s))).spawned = s.spawned + 1 ∧
    (procExit code2 (procExit code (runBuild^[N] s))).running = 0 ∧
    (procExit code2 (procExit code (runBuild^[N] s))).building = false ∧
    (procExit code2 (procExit code (runBuild^[N] s))).queued = false := by
  obtain ⟨n, rfl⟩ : ∃ n, N = n + 1 := ⟨N - 1, by omega⟩
  rw [runBuild_iterate_of_building n s hb]
  have key : ∀ t : State, t.queued = true →
      (procExit code t).spawned = t.spawned + 1 ∧
      (procExit code t).running = t.running - 1 + 1 ∧
      (procExit code t).building = true ∧ (procExit code t).queued = false := by
    intro t ht
    obtain ⟨f1, f2, f3, f4, f5, f6⟩ := sendReload_fields { t with running := t.running - 1 }
    by_cases hc : code = some 0 <;>
      simp_all [procExit, onExit, runBuild, spawn]
  have key2 : ∀ t : State, t.queued = false →
      (procExit code2 t).spawned = t.spawned ∧
      (procExit code2 t).running = t.running - 1 ∧
      (procExit code2 t).building = false ∧ (procExit code2 t).queued = false := by
    intro t ht
    obtain ⟨f1, f2, f3, f4, f5, f6⟩ := sendReload_fields { t with running := t.running - 1 }
    by_cases hc : code2 = some 0 <;>
      simp_all [procExit, onExit, runBuild, spawn]
  obtain ⟨k1, k2, k3, k4⟩ := key { s with queued := true } rfl
  obtain ⟨j1, j2, j3, j4⟩ := key2 _ k4
  have k2b : (procExit code { s with queued := true }).running = 1 := by
    rw [k2]
    simp [hr]
  refine ⟨rfl, k1, k2b, ?_, ?_, j3, j4⟩
  · rw [j1, k1]
  · rw [j2, k2b]

/-- Witness of C1: three calls during the initial build. -/
theorem runBuild_burst_one_followup_witness :
    (1 ≤ 3 ∧ (runBuild State.init).building = true ∧ (runBuild State.init).running = 1) ∧
    (runBuild^[3] (runBuild State.init)).spawned = (runBuild State.init).spawned ∧
    (procExit (some 0) (runBuild^[3] (runBuild State.init))).spawned
      = (runBuild State.init).spawned + 1 ∧
    (procExit (some 0) (runBuild^[3] (runBuild State.init))).running = 1 ∧
    (procExit (some 1) (procExit (some 0) (runBuild^[3] (runBuild State.init)))).spawned
      = (runBuild State.init).spawned + 1 ∧
    (procExit (some 1) (procExit (some 0) (runBuild^[3] (runBuild State.init)))).running = 0 ∧
    (procExit (some 1) (procExit (some 0) (runBuild^[3] (runBuild State.init)))).building
      = false ∧
    (procExit (some 1) (procExit (some 0) (runBuild^[3] (runBuild State.init)))).queued
      = false :=
  ⟨⟨by decide, by decide, by decide⟩,
    runBuild_burst_one_followup 3 (by decide) (runBuild State.init) (by decide) (by decide)
      (some 0) (some 1)⟩

/-- C2: in every state reachable from the initial state by runBuild calls,
build-process exits, subscriptions and disconnections in any order, at most
one build process is in flight, and `building` is true exactly when one is. -/
theorem at_most_one_build (evs : List Event) (s : State)
    (h : run State.init evs = some s) :
    s.running ≤ 1 ∧ (s.building = true ↔ s.running = 1) :=
  serialized_run evs State.init s (by simp [Serialized, State.init]) h

/-- Witness of C2: two triggers, a subscriber, a failed build, the queued
build in flight. -/
theorem at_most_one_build_witness :
    run State.init [Event.trigger, Event.trigger, Event.subscribe 7, Event.exit (some 1)]
      = some { building := true, queued := false, sseClients := [7], running := 1,
               spawned := 2, reloads := 0, writes := [(7, ['\n'])] } ∧
    (1 ≤ 1 ∧ (true = true ↔ 1 = 1)) :=
  ⟨by decide,
    at_most_one_build
      [Event.trigger, Event.trigger, Event.subscribe 7, Event.exit (some 1)]
      { building := true, queued := false, sseClients := [7], running := 1,
        spawned := 2, reloads := 0, writes := [(7, ['\n'])] } (by decide)⟩

/-- C8: the exit handler calls `sendReload` exactly once when the exit code is
0 and not at all otherwise (a non-zero or `null` code writes to no
subscriber); `runBuild` itself never notifies, so over any run the number of
`sendReload` calls is the number of successful exits observed; and after any
exit `building` has been cleared, so that the next `runBuild` call (the queued
one made by the handler, or a later one) spawns a new build. -/
theorem exit_notifies_on_success_only (code : Option Int) (s : State) :
    ((procExit code s).reloads = if code = some 0 then s.reloads + 1 else s.reloads) ∧
    (code = some 0 →
      (procExit code s).writes = s.writes ++ s.sseClients.map (fun res => (res, payload))) ∧
    (code ≠ some 0 → (procExit code s).writes = s.writes) ∧
    ((runBuild s).reloads = s.reloads ∧ (runBuild s).writes = s.writes) ∧
    (∀ evs t, run State.init evs = some t →
      t.reloads = (evs.filter Event.isSuccess).length) ∧
    (s.queued = false →
      (procExit code s).building = false ∧
      (runBuild (procExit code s)).spawned = s.spawned + 1) ∧
    (s.queued = true → (procExit code s).spawned = s.spawned + 1) := by
  refine ⟨?_, ?_, ?_, ⟨(runBuild_keeps s).1, (runBuild_keeps s).2.1⟩, ?_, ?_, ?_⟩
  · rw [procExit, onExit_reloads]
  · intro hc
    rw [procExit, onExit_writes, if_pos hc]
  · intro hc
    rw [procExit, onExit_writes, if_neg hc]
  · intro evs t ht
    have := run_reloads evs State.init t ht
    simpa [State.init] using this
  · intro hq
    obtain ⟨f1, f2, f3, f4, f5, f6⟩ := sendReload_fields { s with running := s.running - 1 }
    by_cases hc : code = some 0 <;>
      simp_all [procExit, onExit, runBuild, spawn]
  · intro hq
    obtain ⟨f1, f2, f3, f4, f5, f6⟩ := sendReload_fields { s with running := s.running - 1 }
    by_cases hc : code = some 0 <;>
      simp_all [procExit, onExit, runBuild, spawn]

/-- Witness of C8: a build killed by a signal (`null` code) while two
subscribers are connected. -/
theorem exit_notifies_on_success_only_witness :
    (procExit none buildingTwoClients).writes = [] ∧
    (procExit none buildingTwoClients).building = false ∧
    (runBuild (procExit none buildingTwoClients)).spawned = 1 + 1 :=
  ⟨(exit_notifies_on_success_only none buildingTwoClients).2.2.1 (by decide),
   (exit_notifies_on_success_only none buildingTwoClients).2.2.2.2.2.1 rfl⟩

/-- C6, evaluated on the code: a template saved at time 0 and a notification
outside the allowlist 100 ms later produce no `runBuild` call at all, while
the same sequence with the ignored notification removed produces one, at
time 150. -/
theorem ignored_event_cancels_rebuild :
    runBuildCalls saveThenIgnored = [] ∧
    saveThenIgnored.filter FsEvent.accepted = [changeAt 0 "a.html"] ∧
    runBuildCalls (saveThenIgnored.filter FsEvent.accepted) = [150] := by
  decide

/-- C7: when every notification has no filename, or a filename that does not
end, without regard to case, in one of `.html .njk .txt .json .css .js .ts`,
the watcher never calls `runBuild`. -/
theorem ignored_events_never_build (evs : List FsEvent)
    (h : ∀ e ∈ evs, ∀ f, e.filename = some f →
      ∀ ext ∈ [".html", ".njk", ".txt", ".json", ".css", ".js", ".ts"].map String.toList,
        ¬ ext <:+ f.map Char.toLower) :
    runBuildCalls evs = [] := by
  have hign : ∀ e ∈ evs, e.accepted = false := by
    intro e he
    cases hf : e.filename with
    | none => simp [FsEvent.accepted, watchFn, hf]
    | some f =>
      rw [accepted_of_suffix e f hf]
      exact shouldRebuild_eq_false f (h e he f hf)
  cases evs with
  | nil => simp [runBuildCalls, watchRun]
  | cons p ps =>
    rw [runBuildCalls, watchRun_none_cons]
    exact watchRun_ignored p ps hign

/-- Witness of C7: a notification without filename and one for a Markdown
file. -/
theorem ignored_events_never_build_witness :
    runBuildCalls [{ time := 0, eventType := "rename".toList, filename := none },
      changeAt 10 "README.md"] = [] :=
  ignored_events_never_build _ (by
    intro e he f hf ext hext
    simp only [List.mem_cons, List.mem_singleton, List.not_mem_nil, or_false] at he
    rcases he with rfl | rfl
    · simp at hf
    · simp only [changeAt, Option.some.injEq] at hf
      subst hf
      simp only [List.map_cons, List.map_nil, List.mem_cons, List.mem_singleton,
        List.not_mem_nil, or_false] at hext
      rcases hext with rfl | rfl | rfl | rfl | rfl | rfl | rfl <;> decide)

/-- C3, evaluated on the code: with the scripts in `/srv/app/scripts` the
output root is `/srv/app/dist`; the request `/../dist-other/x` resolves to
`/srv/app/dist-other/x`, which is neither the root nor inside it, and the
handler reads that file and replies with its contents (status 200) instead
of 403. -/
theorem sibling_directory_served :
    DIST_DIR siblingEnv.dirname = "/srv/app/dist".toList ∧
    pathJoin [DIST_DIR siblingEnv.dirname, "../dist-other/x".toList]
      = "/srv/app/dist-other/x".toList ∧
    insideRoot (DIST_DIR siblingEnv.dirname) "/srv/app/dist-other/x".toList = false ∧
    handler siblingEnv "/../dist-other/x".toList
      = Except.ok { reply := Reply.file "application/octet-stream".toList "secret".toList,
                    reads := ["/srv/app/dist-other/x".toList] } := by
  decide

/-- C4, evaluated on the code: for the request `/%` the exception `URIError`
of `decodeURIComponent` leaves the handler, whatever the surroundings; and
for the request `/` with an output directory that cannot be listed the
exception of `readdirSync` leaves the handler. -/
theorem handler_throws :
    (∀ env : Env, handler env "/%".toList = Except.error JsError.uriError) ∧
    handler siblingEnv "/".toList = Except.error JsError.fsError := by
  refine ⟨?_, by decide⟩
  intro env
  rfl

/-- C10: the build pass is fail-fast. When rendering fails for a template
`file`, the templates before it (`pre`) having rendered, the pass ends with
that error and a non-zero exit code, and the writes made are exactly one per
template of `pre`, in order, each to the output file of the same name with the
rendered text: nothing is written for `file` or for a template after it (for
the distinct plain names of a directory listing, no write goes to their
output files). When no render fails, the pass succeeds with exit code 0 and
the writes are exactly one per discovered template, each with its rendered
text (to distinct output files). -/
theorem build_fail_fast {ε : Type} (dirname : Str) (entries : List Str)
    (render : Str → Except ε Str) :
    (∀ pre file post err,
      entries.filter endsWithHtml = pre ++ file :: post →
      (∀ g ∈ pre, ∃ text, render (templatePath g) = Except.ok text) →
      render (templatePath file) = Except.error err →
        (build dirname entries render).1 = Except.error err ∧
        exitCode (build dirname entries render).1 ≠ 0 ∧
        List.Forall₂ (WriteOf render (DIST_DIR dirname)) pre
          (build dirname entries render).2 ∧
        (entries.Nodup → (∀ g ∈ entries, PlainName g) →
          ∀ w ∈ (build dirname entries render).2, ∀ g ∈ file :: post,
            w.1 ≠ outPath (DIST_DIR dirname) g)) ∧
    ((∀ g ∈ entries.filter endsWithHtml, ∃ text, render (templatePath g) = Except.ok text) →
        (build dirname entries render).1 = Except.ok () ∧
        exitCode (build dirname entries render).1 = 0 ∧
        List.Forall₂ (WriteOf render (DIST_DIR dirname)) (entries.filter endsWithHtml)
          (build dirname entries render).2 ∧
        (entries.Nodup → (∀ g ∈ entries, PlainName g) →
          ((build dirname entries render).2.map Prod.fst).Nodup)) := by
  have hdist : DIST_DIR dirname ≠ [] := pathJoin_ne_nil _
  constructor
  · intro pre file post err hsplit hpre hfile
    obtain ⟨ws, hws, hR⟩ :=
      renderAll_fail render (DIST_DIR dirname) pre file post err [] hpre hfile
    simp only [build, hsplit, hws, List.nil_append]
    refine ⟨trivial, by simp [exitCode], hR, ?_⟩
    intro hnd hplain w hw g hg heq
    have hmem : w.1 ∈ ws.map Prod.fst := List.mem_map_of_mem Prod.fst hw
    rw [written_paths render (DIST_DIR dirname) pre ws hR] at hmem
    obtain ⟨g0, hg0, hg0w⟩ := List.mem_map.mp hmem
    have hsub : ∀ x ∈ pre ++ file :: post, PlainName x := by
      intro x hx
      rw [← hsplit] at hx
      exact hplain x (List.mem_filter.mp hx).1
    have hEq : g0 = g :=
      outPath_injective (DIST_DIR dirname) g0 g hdist
        (hsub g0 (List.mem_append_left _ hg0)) (hsub g (List.mem_append_right _ hg))
        (hg0w.trans heq)
    have hnd2 : (pre ++ file :: post).Nodup := hsplit ▸ hnd.filter _
    exact List.disjoint_of_nodup_append hnd2 hg0 (hEq ▸ hg)
  · intro hall
    obtain ⟨ws, hws, hR⟩ :=
      renderAll_ok render (DIST_DIR dirname) (entries.filter endsWithHtml) [] hall
    simp only [build, hws, List.nil_append]
    refine ⟨trivial, by simp [exitCode], hR, ?_⟩
    intro hnd hplain
    rw [written_paths render (DIST_DIR dirname) _ ws hR]
    refine List.Nodup.map_on ?_ (hnd.filter _)
    intro x hx y hy hxy
    exact outPath_injective (DIST_DIR dirname) x y hdist
      (hplain x (List.mem_filter.mp hx).1) (hplain y (List.mem_filter.mp hy).1) hxy

/-- Witness of C10: of `a.html`, `notes.txt`, `b.html`, `c.HTML` the second
template has an unresolvable include: the pass fails after writing `a.html`
alone. -/
theorem build_fail_fast_witness :
    (build "/srv/app/scripts".toList
        ["a.html".toList, "notes.txt".toList, "b.html".toList, "c.HTML".toList] failOnB).1
      = Except.error "template not found" ∧
    exitCode (build "/srv/app/scripts".toList
        ["a.html".toList, "notes.txt".toList, "b.html".toList, "c.HTML".toList] failOnB).1
      ≠ 0 ∧
    List.Forall₂ (WriteOf failOnB (DIST_DIR "/srv/app/scripts".toList)) ["a.html".toList]
      (build "/srv/app/scripts".toList
        ["a.html".toList, "notes.txt".toList, "b.html".toList, "c.HTML".toList] failOnB).2 ∧
    (build "/srv/app/scripts".toList
        ["a.html".toList, "notes.txt".toList, "b.html".toList, "c.HTML".toList] failOnB).2
      = [("/srv/app/dist/a.html".toList, "Hello".toList)] := by
  have h := (build_fail_fast "/srv/app/scripts".toList
      ["a.html".toList, "notes.txt".toList, "b.html".toList, "c.HTML".toList] failOnB).1
      ["a.html".toList] "b.html".toList ["c.HTML".toList] "template not found"
      (by decide)
      (by
        intro g hg
        simp only [List.mem_singleton] at hg
        subst hg
        exact ⟨"Hello".toList, by decide⟩)
      (by decide)
  exact ⟨h.1, h.2.1, h.2.2.1, by decide⟩

end Watch
